import Mathlib

/-!
Verification of the mpipy runtime against its specification.

The definitions below are shallow embeddings of the Python sources under
`src/mpipy/`: pure functions become Lean functions, byte strings become
`List Nat` (each entry a byte value), the tagged inboxes of the transports
become `List Message` in arrival order, and the process-wide mutable state
of `runtime.py` becomes an explicit `RunState` record threaded through the
modelled control flow.  Machine integers are modelled as `Nat`/`Int` with
explicit `% 2 ^ 32` where the wire format truncates.
-/

set_option autoImplicit false

namespace Mpipy

/-! ## Wire protocol (`src/mpipy/protocol.py`) -/

/-- Embedding of `protocol.MsgType`: `DATA = 1`, `CONTROL = 2`. -/
inductive MsgType where
  | DATA
  | CONTROL
  deriving DecidableEq, Repr

/-- Numeric value of a `MsgType`, as in `int(msg_type)`. -/
def MsgType.toNat : MsgType → Nat
  | .DATA => 1
  | .CONTROL => 2

/-- Embedding of the `MsgType(msg_type)` conversion performed by
`unpack_header`; a byte that is neither 1 nor 2 raises `ValueError` in
Python, modelled as `none`. -/
def MsgType.ofByte : Nat → Option MsgType
  | 1 => some MsgType.DATA
  | 2 => some MsgType.CONTROL
  | _ => none

/-- Big-endian (network order) encoding of a `u32`, as produced for each
`I` field of `struct.Struct("!I B I I I")`. -/
def u32be (x : Nat) : List Nat :=
  [x / 2 ^ 24 % 256, x / 2 ^ 16 % 256, x / 2 ^ 8 % 256, x % 256]

/-- Big-endian decoding of four bytes into a `u32`, as performed for each
`I` field by `struct.unpack`. -/
def deU32be (b0 b1 b2 b3 : Nat) : Nat :=
  b0 * 2 ^ 24 + b1 * 2 ^ 16 + b2 * 2 ^ 8 + b3

/-- Embedding of `protocol.pack_message`: the 17-byte header
`!I B I I I` holding `(len(payload), type, src, dest, tag)` followed by the
payload bytes. -/
def pack_message (msg_type : MsgType) (src dest tag : Nat) (payload : List Nat) : List Nat :=
  u32be payload.length ++ msg_type.toNat :: (u32be src ++ u32be dest ++ u32be tag) ++ payload

/-- Embedding of `protocol.unpack_header`: `struct.unpack` demands exactly
17 bytes (`none` otherwise) and `MsgType(msg_type)` rejects an invalid type
byte (`none`). -/
def unpack_header : List Nat → Option (Nat × MsgType × Nat × Nat × Nat)
  | [l0, l1, l2, l3, tb, s0, s1, s2, s3, d0, d1, d2, d3, g0, g1, g2, g3] =>
      match MsgType.ofByte tb with
      | some mt =>
          some (deU32be l0 l1 l2 l3, mt, deU32be s0 s1 s2 s3,
            deU32be d0 d1 d2 d3, deU32be g0 g1 g2 g3)
      | none => none
  | _ => none

/-- Decoding inverts encoding for values below `2 ^ 32`. -/
theorem deU32be_u32be (x : Nat) (hx : x < 2 ^ 32) :
    deU32be (x / 2 ^ 24 % 256) (x / 2 ^ 16 % 256) (x / 2 ^ 8 % 256) (x % 256) = x := by
  unfold deU32be
  omega

/-- `MsgType.ofByte` inverts `MsgType.toNat`. -/
theorem MsgType.ofByte_toNat (t : MsgType) : MsgType.ofByte t.toNat = some t := by
  cases t <;> rfl

/-- C6: for every `msg_type`, every `src`, `dest`, `tag` below `2 ^ 32` and
every payload of length below `2 ^ 32`, `unpack_header` applied to the first
17 bytes of `pack_message msg_type src dest tag payload` returns exactly
`(payload.length, msg_type, src, dest, tag)`, and the bytes of the frame
after the 17-byte header are the payload unchanged. -/
theorem unpack_header_pack_message (msg_type : MsgType) (src dest tag : Nat)
    (payload : List Nat) (hs : src < 2 ^ 32) (hd : dest < 2 ^ 32) (ht : tag < 2 ^ 32)
    (hp : payload.length < 2 ^ 32) :
    unpack_header ((pack_message msg_type src dest tag payload).take 17) =
      some (payload.length, msg_type, src, dest, tag) ∧
    (pack_message msg_type src dest tag payload).drop 17 = payload := by
  constructor
  · simp only [pack_message, u32be, List.cons_append, List.nil_append, List.take_succ_cons,
      List.take_zero, unpack_header, MsgType.ofByte_toNat]
    rw [deU32be_u32be payload.length hp, deU32be_u32be src hs, deU32be_u32be dest hd,
      deU32be_u32be tag ht]
  · simp only [pack_message, u32be, List.cons_append, List.nil_append, List.drop_succ_cons,
      List.drop_zero]

/-- Witness for C6 at a concrete frame. -/
theorem unpack_header_pack_message_witness :
    unpack_header ((pack_message MsgType.DATA 1 2 3 [10, 20]).take 17) =
      some (2, MsgType.DATA, 1, 2, 3) ∧
    (pack_message MsgType.DATA 1 2 3 [10, 20]).drop 17 = [10, 20] := by
  have h := unpack_header_pack_message MsgType.DATA 1 2 3 [10, 20]
    (by decide) (by decide) (by decide) (by decide)
  simpa using h

/-! ## Transport inboxes (`src/mpipy/transport.py`) -/

/-- Reserved collective tags from `runtime.py` and control tags from
`transport.py`. -/
def TAG_USER : Nat := 0

/-- Reserved tag for `Comm.bcast`. -/
def TAG_BCAST : Nat := 1

/-- Reserved tag for `Comm.scatter`. -/
def TAG_SCATTER : Nat := 2

/-- Reserved tag for `Comm.gather`. -/
def TAG_GATHER : Nat := 3

/-- Reserved tag for `Comm.barrier`. -/
def TAG_BARRIER : Nat := 4

/-- Handshake control tag from `transport.py`. -/
def HELLO_TAG : Nat := 100

/-- Cancellation control tag from `transport.py`. -/
def CANCEL_TAG : Nat := 200

/-- Embedding of `transport.Message`: the in-memory record held by the
inboxes.  The decoded payload is opaque to the transport, so it is a type
parameter. -/
structure Message (α : Type) where
  src : Nat
  dest : Nat
  tag : Nat
  payload : α
  deriving DecidableEq, Repr

variable {α : Type}

/-- Embedding of the condition `tag is None or msg.tag == tag` used by both
`WorkerTransport.recv` and `MasterRouter.recv`. -/
def tag_matches (tagFilter : Option Nat) (m : Message α) : Bool :=
  match tagFilter with
  | none => true
  | some t => m.tag == t

/-- One pass of the dequeue/re-enqueue loop shared by
`WorkerTransport.recv` and `MasterRouter.recv`: the first list is the part
of the FIFO inbox not yet examined, the second accumulates the re-enqueued
non-matching messages (appended at the back of the queue, in examination
order).  Returns the first matching message together with the queue state
after its removal; `none` means no queued message matches, in which case
the Python loop keeps polling (it blocks). -/
def recv_scan (tagFilter : Option Nat) :
    List (Message α) → List (Message α) → Option (Message α × List (Message α))
  | [], _ => none
  | m :: rest, rot =>
      if tag_matches tagFilter m then some (m, rest ++ rot)
      else recv_scan tagFilter rest (rot ++ [m])

/-- Embedding of a single successful `recv(tag=...)` call of
`WorkerTransport.recv` / `MasterRouter.recv` against the current inbox
contents (no concurrent arrivals): tag-filtered FIFO with re-enqueue. -/
def transport_recv (inbox : List (Message α)) (tagFilter : Option Nat) :
    Option (Message α × List (Message α)) :=
  recv_scan tagFilter inbox []

/-- Repeated `transport_recv` with a fixed tag filter, collecting the
returned messages until no queued message matches.  The fuel is the queue
length, enough because every successful call removes one message. -/
def recv_all_go (tagFilter : Option Nat) :
    Nat → List (Message α) → List (Message α) × List (Message α)
  | 0, q => ([], q)
  | fuel + 1, q =>
      match transport_recv q tagFilter with
      | none => ([], q)
      | some (m, q') =>
          let rest := recv_all_go tagFilter fuel q'
          (m :: rest.1, rest.2)

/-- Repeated `recv(tag=...)` calls against an inbox: the list of messages
returned (in order) and the final queue. -/
def recv_all (inbox : List (Message α)) (tagFilter : Option Nat) :
    List (Message α) × List (Message α) :=
  recv_all_go tagFilter inbox.length inbox

/-- A scan over a queue with no matching message finds nothing. -/
theorem recv_scan_eq_none (tagFilter : Option Nat) (q rot : List (Message α))
    (h : ∀ m ∈ q, tag_matches tagFilter m = false) :
    recv_scan tagFilter q rot = none := by
  induction q generalizing rot with
  | nil => rfl
  | cons m rest ih =>
      have hm := h m (List.mem_cons_self m rest)
      simp only [recv_scan, hm, Bool.false_eq_true, if_false]
      exact ih _ fun x hx => h x (List.mem_cons_of_mem m hx)

/-- A scan over a queue whose first matching message is `m` returns `m` and
moves the skipped prefix to the back of the queue. -/
theorem recv_scan_first_match (tagFilter : Option Nat) (pre post rot : List (Message α))
    (m : Message α) (hpre : ∀ x ∈ pre, tag_matches tagFilter x = false)
    (hm : tag_matches tagFilter m = true) :
    recv_scan tagFilter (pre ++ m :: post) rot = some (m, post ++ rot ++ pre) := by
  induction pre generalizing rot with
  | nil => simp [recv_scan, hm]
  | cons p pre' ih =>
      have hp := hpre p (List.mem_cons_self p pre')
      simp only [List.cons_append, recv_scan, hp, Bool.false_eq_true, if_false]
      show recv_scan tagFilter (pre' ++ m :: post) (rot ++ [p]) =
        some (m, post ++ rot ++ p :: pre')
      rw [ih _ fun x hx => hpre x (List.mem_cons_of_mem p hx)]
      simp [List.append_assoc]

/-- Every queue containing a matching message splits at its first matching
message. -/
theorem exists_first_match (tagFilter : Option Nat) (q : List (Message α))
    (m0 : Message α) (hm0 : m0 ∈ q) (hmt : tag_matches tagFilter m0 = true) :
    ∃ pre m post, q = pre ++ m :: post ∧
      (∀ x ∈ pre, tag_matches tagFilter x = false) ∧ tag_matches tagFilter m = true := by
  induction q with
  | nil => cases hm0
  | cons a rest ih =>
      by_cases ha : tag_matches tagFilter a = true
      · exact ⟨[], a, rest, rfl, fun x hx => absurd hx (List.not_mem_nil x), ha⟩
      · have hm0' : m0 ∈ rest := by
          rcases List.mem_cons.mp hm0 with h | h
          · exact absurd (h ▸ hmt) ha
          · exact h
        obtain ⟨pre, m, post, hq, hpre, hm⟩ := ih hm0'
        exact ⟨a :: pre, m, post, by rw [hq, List.cons_append],
          fun x hx => by
            rcases List.mem_cons.mp hx with h | h
            · subst h; exact Bool.eq_false_iff.mpr ha
            · exact hpre x h, hm⟩

/-- Repeated tag-filtered receives drain exactly the `A`-tagged messages in
arrival order; the rest of the queue is a permutation of the `B`-tagged
messages. -/
theorem recv_all_go_spec (A B : Nat) (hAB : A ≠ B) :
    ∀ (fuel : Nat) (q : List (Message α)), q.length ≤ fuel →
      (∀ m ∈ q, m.tag = A ∨ m.tag = B) →
      (recv_all_go (some A) fuel q).1 = q.filter (fun m => m.tag == A) ∧
      (recv_all_go (some A) fuel q).2.Perm (q.filter (fun m => m.tag == B)) := by
  intro fuel
  induction fuel with
  | zero =>
      intro q hq _
      have : q = [] := List.length_eq_zero.mp (Nat.le_zero.mp hq)
      subst this
      exact ⟨rfl, List.Perm.refl _⟩
  | succ fuel ih =>
      intro q hq htags
      by_cases hex : ∃ m0 ∈ q, tag_matches (some A) m0 = true
      · obtain ⟨m0, hm0, hmt⟩ := hex
        obtain ⟨pre, m, post, hsplit, hpre, hm⟩ := exists_first_match (some A) q m0 hm0 hmt
        subst hsplit
        have hscan : transport_recv (pre ++ m :: post) (some A) = some (m, post ++ pre) := by
          have := recv_scan_first_match (some A) pre post [] m hpre hm
          simpa [transport_recv] using this
        have hlen : (post ++ pre).length ≤ fuel := by
          simp only [List.length_append] at hq ⊢
          simp only [List.length_cons] at hq
          omega
        have htags' : ∀ x ∈ post ++ pre, x.tag = A ∨ x.tag = B := by
          intro x hx
          rcases List.mem_append.mp hx with h | h
          · exact htags x (by simp [h])
          · exact htags x (by simp [h])
        obtain ⟨ih1, ih2⟩ := ih (post ++ pre) hlen htags'
        have hmA : m.tag = A := by simpa [tag_matches] using hm
        have hpreB : ∀ x ∈ pre, x.tag = B := by
          intro x hx
          have hxf := hpre x hx
          rcases htags x (by simp [hx]) with h | h
          · exfalso
            simp [tag_matches, h] at hxf
          · exact h
        constructor
        · simp only [recv_all_go, hscan]
          have hfilpre : pre.filter (fun m => m.tag == A) = [] := by
            apply List.filter_eq_nil_iff.mpr
            intro x hx
            simp [hpreB x hx, hAB.symm]
          rw [List.filter_append, hfilpre, List.nil_append, List.filter_cons_of_pos
            (by simp [hmA])]
          rw [ih1, List.filter_append, hfilpre, List.append_nil]
        · simp only [recv_all_go, hscan]
          refine ih2.trans ?_
          rw [List.filter_append, List.filter_append, List.filter_cons_of_neg
            (by simp [hmA, hAB])]
          exact List.perm_append_comm
      · push_neg at hex
        have hnone : transport_recv q (some A) = none :=
          recv_scan_eq_none (some A) q []
            (fun m hm => Bool.eq_false_iff.mpr (hex m hm))
        have hfilA : q.filter (fun m => m.tag == A) = [] := by
          apply List.filter_eq_nil_iff.mpr
          intro x hx
          have := hex x hx
          simpa [tag_matches] using this
        have hfilB : q.filter (fun m => m.tag == B) = q := by
          apply List.filter_eq_self.mpr
          intro x hx
          have hxA := hex x hx
          rcases htags x hx with h | h
          · exfalso
            simp [tag_matches, h] at hxA
          · simp [h]
        simp only [recv_all_go, hnone]
        exact ⟨hfilA.symm, by rw [hfilB]⟩

/-- C5: for every inbox holding messages tagged `A` or `B` in some arrival
order, repeated `recv(tag=A)` calls return exactly the `A`-tagged messages
in arrival order, never return a `B`-tagged message, and leave the
`B`-tagged messages in the inbox for later calls. -/
theorem tag_filtered_fifo (inbox : List (Message α)) (A B : Nat) (hAB : A ≠ B)
    (htags : ∀ m ∈ inbox, m.tag = A ∨ m.tag = B) :
    (recv_all inbox (some A)).1 = inbox.filter (fun m => m.tag == A) ∧
    (∀ m ∈ (recv_all inbox (some A)).1, m.tag = A) ∧
    (recv_all inbox (some A)).2.Perm (inbox.filter (fun m => m.tag == B)) := by
  have h := recv_all_go_spec (α := α) A B hAB inbox.length inbox (Nat.le_refl _) htags
  have h1 : (recv_all inbox (some A)).1 = inbox.filter (fun m => m.tag == A) := h.1
  have h2 : (recv_all inbox (some A)).2.Perm (inbox.filter (fun m => m.tag == B)) := h.2
  refine ⟨h1, ?_, h2⟩
  intro m hm
  rw [h1] at hm
  have := List.of_mem_filter hm
  simpa using this

/-- Witness for C5: tags 1 and 2 interleaved; the two tag-1 messages come
back in arrival order and the two tag-2 messages survive in the queue. -/
theorem tag_filtered_fifo_witness :
    (recv_all [Message.mk 1 0 2 (10 : Nat), Message.mk 1 0 1 11,
        Message.mk 1 0 2 12, Message.mk 1 0 1 13] (some 1)).1 =
      [Message.mk 1 0 1 11, Message.mk 1 0 1 13] ∧
    (recv_all [Message.mk 1 0 2 (10 : Nat), Message.mk 1 0 1 11,
        Message.mk 1 0 2 12, Message.mk 1 0 1 13] (some 1)).2.Perm
      [Message.mk 1 0 2 10, Message.mk 1 0 2 12] := by
  have h := tag_filtered_fifo
    [Message.mk 1 0 2 (10 : Nat), Message.mk 1 0 1 11,
      Message.mk 1 0 2 12, Message.mk 1 0 1 13] 1 2
    (by decide) (by decide)
  obtain ⟨h1, _, h3⟩ := h
  exact ⟨by rw [h1]; rfl, by simpa using h3⟩

/-! ## The polling loop of `recv` with a timeout (`src/mpipy/transport.py`)

The bodies of `WorkerTransport.recv` and `MasterRouter.recv` are identical:
a `while True` loop that polls the inbox with `inbox.get(timeout=0.1)`.
Time is modelled in poll granules of 0.1 s: a `queue.Empty` outcome takes one
granule, a successful `get` on a non-empty queue takes none.  The timeout
check `time.time() - start > timeout` sits inside the `except queue.Empty`
branch only. -/

/-- Outcome of the `recv` loop after a bounded number of iterations. -/
inductive RecvOutcome (α : Type) where
  | returned (m : Message α)
  | timedOut
  | running
  deriving DecidableEq, Repr

/-- Small-step embedding of the polling loop of `WorkerTransport.recv` and
`MasterRouter.recv`, run for at most `fuel` iterations with no concurrent
arrivals.  `timeout` is in poll granules (0.1 s); `elapsed` counts completed
empty polls.  On an empty queue the `get` raises `queue.Empty` after one
granule and only then is the deadline checked; on a non-empty queue the
head is dequeued at once and a non-matching head is re-enqueued at the back
without any deadline check. -/
def recv_loop (tagFilter : Option Nat) (timeout : Option Nat) :
    Nat → List (Message α) → Nat → RecvOutcome α
  | 0, _, _ => .running
  | fuel + 1, [], elapsed =>
      match timeout with
      | some t =>
          if elapsed + 1 > t then .timedOut
          else recv_loop tagFilter timeout fuel [] (elapsed + 1)
      | none => recv_loop tagFilter timeout fuel [] (elapsed + 1)
  | fuel + 1, m :: rest, elapsed =>
      if tag_matches tagFilter m then .returned m
      else recv_loop tagFilter timeout fuel (rest ++ [m]) elapsed

/-- C3 (failing run): with an inbox that perpetually contains only
non-matching messages, the loop of `recv(tag=1, timeout=...)` never reaches
the timeout check: after any number of iterations it is still spinning,
neither returning nor raising `Timeout`, for every finite timeout.  The
claimed bound `timeout + one poll interval` therefore fails. -/
theorem recv_timeout_never_fires_on_nonmatching (fuel elapsed t : Nat) :
    recv_loop (some 1) (some t) fuel [Message.mk 2 0 2 (0 : Nat)] elapsed =
      RecvOutcome.running := by
  induction fuel generalizing elapsed with
  | zero => rfl
  | succ fuel ih => simpa [recv_loop, tag_matches] using ih elapsed

/-! ## `Comm.recv` source filtering (`src/mpipy/runtime.py`) -/

/-- Fuel-indexed embedding of `Comm.recv`: call `transport.recv(tag=...)`
and, when a `source` filter is given and the returned message's `src` does
not match, recurse on the remaining queue.  The non-matching message is
*not* put back into the inbox.  `none` models the underlying transport
blocking because nothing with the requested tag is queued.  The fuel is the
queue length, enough because every transport receive removes one message. -/
def comm_recv_go (source : Option Nat) (tagFilter : Option Nat) :
    Nat → List (Message α) → Option (α × List (Message α))
  | 0, _ => none
  | fuel + 1, inbox =>
      match transport_recv inbox tagFilter with
      | none => none
      | some (m, rest) =>
          match source with
          | some s => if m.src = s then some (m.payload, rest)
              else comm_recv_go source tagFilter fuel rest
          | none => some (m.payload, rest)

/-- Embedding of `Comm.recv(source=..., tag=...)` against the current inbox
contents: the returned payload and the queue it leaves behind. -/
def comm_recv (inbox : List (Message α)) (source : Option Nat) (tagFilter : Option Nat) :
    Option (α × List (Message α)) :=
  comm_recv_go source tagFilter inbox.length inbox

/-- C2 (failing run): with the inbox holding a tag-3 message from source 2
followed by a tag-3 message from source 1, `recv(source=1, tag=3)` returns
the payload from source 1 but leaves the inbox empty: the dequeued message
from source 2 has been discarded, not re-enqueued.  The claim that every
dequeued non-matching message remains available is false. -/
theorem comm_recv_discards_other_source :
    comm_recv [Message.mk 2 0 3 (77 : Nat), Message.mk 1 0 3 88] (some 1) (some 3) =
      some (88, []) := by
  decide

/-! ## `Comm.gather` (`src/mpipy/runtime.py`) -/

/-- Embedding of the receive loop of the root branch of `Comm.gather`:
`for r in range(1, self.size): results[r] = self.recv(source=r, tag=TAG_GATHER)`,
threading the root's inbox through the successive `recv` calls.  `none`
means some `recv` blocks forever (no matching message ever found). -/
def gather_go : List Nat → List (Option α) → List (Message α) →
    Option (List (Option α) × List (Message α))
  | [], results, inbox => some (results, inbox)
  | r :: rs, results, inbox =>
      match comm_recv inbox (some r) (some TAG_GATHER) with
      | none => none
      | some (pay, inbox') => gather_go rs (results.set r (some pay)) inbox'

/-- Embedding of the root branch of `Comm.gather`: pre-seed slot `root`
with the root's own value, then receive from ranks `1 .. size-1` in rank
order. -/
def gather_root (root size : Nat) (value : α) (inbox : List (Message α)) :
    Option (List (Option α) × List (Message α)) :=
  gather_go (List.range' 1 (size - 1))
    ((List.replicate size (none : Option α)).set root (some value)) inbox

/-- Embedding of the non-root branch of `Comm.gather`: send the value to
the root with `TAG_GATHER` and return `None`. -/
def gather_non_root (rank root : Nat) (value : α) :
    List (Message α) × Option (List (Option α)) :=
  ([Message.mk rank root TAG_GATHER value], none)

/-- C4 (counterexample): with `size = 2` and `root = 1`, the root's receive
loop still runs over ranks `1 .. size-1` and so asks for a message from
source 1 — itself.  The only arriving contribution (from rank 0) is
dequeued, discarded by the source filter, and the loop blocks forever
(`none`): `gather` does not return the claimed list. -/
theorem gather_root_one_blocks :
    gather_root 1 2 (42 : Nat) [Message.mk 0 1 3 (7 : Nat)] = none := by
  decide

/-- Assigning `some (f k), some (f (k+1)), ..., some (f (k+m-1))` into
slots `k .. k+m-1` of a results list, as the gather receive loop does. -/
def set_range (f : Nat → α) : List (Option α) → Nat → Nat → List (Option α)
  | results, _, 0 => results
  | results, k, m + 1 => set_range f (results.set k (some (f k))) (k + 1) m

/-- The length of a results list is unchanged by `set_range`. -/
theorem set_range_length (f : Nat → α) :
    ∀ (m k : Nat) (results : List (Option α)),
      (set_range f results k m).length = results.length := by
  intro m
  induction m with
  | zero => intro k results; rfl
  | succ m ih =>
      intro k results
      rw [set_range, ih, List.length_set]

/-- Entries of a `set_range` result: positions `k ≤ j < k + m` hold
`some (f j)`, others are untouched. -/
theorem set_range_get (f : Nat → α) :
    ∀ (m k : Nat) (results : List (Option α)) (j : Nat), j < results.length →
      (set_range f results k m)[j]? =
        if k ≤ j ∧ j < k + m then some (some (f j)) else results[j]? := by
  intro m
  induction m with
  | zero =>
      intro k results j _
      have h : ¬ (k ≤ j ∧ j < k) := by omega
      simp [set_range, h]
  | succ m ih =>
      intro k results j hj
      rw [set_range, ih (k + 1) _ j (by rw [List.length_set]; exact hj)]
      by_cases hjk : j = k
      · subst hjk
        have h1 : ¬ (j + 1 ≤ j ∧ j < j + 1 + m) := by omega
        have h2 : j ≤ j ∧ j < j + (m + 1) := by omega
        simp [h1, h2, List.getElem?_set, hj]
      · by_cases hrange : k + 1 ≤ j ∧ j < k + 1 + m
        · have h2 : k ≤ j ∧ j < k + (m + 1) := by omega
          simp [hrange, h2]
        · have h2 : ¬ (k ≤ j ∧ j < k + (m + 1)) := by omega
          simp only [hrange, if_false, h2, List.getElem?_set]
          rw [if_neg fun h => absurd h.symm hjk]

/-- An inbox in which the gather contributions of ranks `k .. k+m-1` sit in
rank order. -/
def gather_msgs (f : Nat → α) (k m : Nat) : List (Message α) :=
  (List.range' k m).map fun r => Message.mk r 0 TAG_GATHER (f r)

/-- The gather receive loop over ranks `k .. k+m-1`, fed the contributions
in rank order, consumes the whole inbox and fills the corresponding
slots. -/
theorem gather_go_rank_order (f : Nat → α) :
    ∀ (m k : Nat) (results : List (Option α)),
      gather_go (List.range' k m) results (gather_msgs f k m) =
        some (set_range f results k m, []) := by
  intro m
  induction m with
  | zero => intro k results; rfl
  | succ m ih =>
      intro k results
      have hmsgs : gather_msgs f k (m + 1) =
          Message.mk k 0 TAG_GATHER (f k) :: gather_msgs f (k + 1) m := by
        simp [gather_msgs, List.range'_succ]
      rw [List.range'_succ, hmsgs]
      have hrecv : comm_recv (Message.mk k 0 TAG_GATHER (f k) :: gather_msgs f (k + 1) m)
          (some k) (some TAG_GATHER) = some (f k, gather_msgs f (k + 1) m) := by
        simp [comm_recv, comm_recv_go, transport_recv, recv_scan, tag_matches]
      simp only [gather_go, hrecv]
      exact ih (k + 1) _

/-- C4 (amended): with root 0 and the worker contributions arriving in rank
order, `gather` on the root returns a list of length `size` whose entry at
index `r` is rank `r`'s contribution `f r`, and every non-root rank sends
its value to the root and returns `None`. -/
theorem gather_rank_order (f : Nat → α) (size : Nat) (hs : 0 < size) :
    (∃ results, gather_root 0 size (f 0) (gather_msgs f 1 (size - 1)) =
        some (results, []) ∧ results.length = size ∧
        ∀ r, r < size → results[r]? = some (some (f r))) ∧
    (∀ rank, gather_non_root rank 0 (f rank) =
      ([Message.mk rank 0 TAG_GATHER (f rank)], none)) := by
  refine ⟨?_, fun rank => rfl⟩
  refine ⟨set_range f ((List.replicate size (none : Option α)).set 0 (some (f 0))) 1
    (size - 1), ?_, ?_, ?_⟩
  · exact gather_go_rank_order f (size - 1) 1 _
  · rw [set_range_length, List.length_set, List.length_replicate]
  · intro r hr
    have hlen : r < ((List.replicate size (none : Option α)).set 0 (some (f 0))).length := by
      rw [List.length_set, List.length_replicate]; exact hr
    rw [set_range_get f (size - 1) 1 _ r hlen]
    by_cases hr0 : r = 0
    · subst hr0
      have : ¬ (1 ≤ 0 ∧ 0 < 1 + (size - 1)) := by omega
      simp [this, List.getElem?_set, hlen]
      omega
    · have : 1 ≤ r ∧ r < 1 + (size - 1) := by omega
      simp [this]

/-- Witness for C4 (amended) at `size = 3` with contributions `r * 10`. -/
theorem gather_rank_order_witness :
    (∃ results, gather_root 0 3 ((fun r => r * 10 : Nat → Nat) 0)
        (gather_msgs (fun r => r * 10) 1 (3 - 1)) = some (results, []) ∧
        results.length = 3 ∧
        ∀ r, r < 3 → results[r]? = some (some (r * 10))) ∧
    (∀ rank, gather_non_root rank 0 ((fun r => r * 10 : Nat → Nat) rank) =
      ([Message.mk rank 0 TAG_GATHER (rank * 10)], none)) :=
  gather_rank_order (fun r => r * 10) 3 (by decide)

/-! ## `Comm.scatter` (`src/mpipy/runtime.py`) -/

/-- The messages emitted by the root branch of `Comm.scatter`:
`for r in range(self.size): if r != root: self.send(values[r], dest=r, tag=TAG_SCATTER)`.
Since `values.length = size` is checked first, `values[r]?` is always
`some` for the ranks visited. -/
def scatter_sends (root size : Nat) (values : List α) : List (Message α) :=
  (List.range size).filterMap fun r =>
    if r = root then none
    else (values[r]?).map fun v => Message.mk root r TAG_SCATTER v

/-- Embedding of the root branch of `Comm.scatter`: the length check
(raising `ValueError`, modelled as `Except.error ()`) happens before any
send; on success the root's own piece `values[root]` is returned together
with the emitted messages. -/
def scatter_root (root size : Nat) (values : List α) :
    Except Unit (Option α × List (Message α)) :=
  if values.length ≠ size then Except.error ()
  else Except.ok (values[root]?, scatter_sends root size values)

/-- Embedding of the non-root branch of `Comm.scatter`:
`self.recv(source=root, tag=TAG_SCATTER)` against the rank's inbox. -/
def scatter_non_root (inbox : List (Message α)) (root : Nat) :
    Option (α × List (Message α)) :=
  comm_recv inbox (some root) (some TAG_SCATTER)

/-- Every message in `scatter_sends` is addressed to one of the visited
ranks. -/
theorem mem_scatter_sends_dest (root : Nat) (values : List α) (rs : List Nat)
    (m : Message α)
    (hm : m ∈ rs.filterMap fun r =>
      if r = root then none
      else (values[r]?).map fun v => Message.mk root r TAG_SCATTER v) :
    m.dest ∈ rs := by
  obtain ⟨r, hr, hg⟩ := List.mem_filterMap.mp hm
  by_cases hroot : r = root
  · simp [hroot] at hg
  · simp only [hroot, if_false, Option.map_eq_some'] at hg
    obtain ⟨v, _, rfl⟩ := hg
    exact hr

/-- Filtering the scatter sends for one destination rank yields exactly
that rank's piece. -/
theorem scatter_sends_filter_dest (root : Nat) (values : List α) (v : α) :
    ∀ (rs : List Nat) (r : Nat), rs.Nodup → r ∈ rs → r ≠ root →
      values[r]? = some v →
      ((rs.filterMap fun x =>
          if x = root then none
          else (values[x]?).map fun w => Message.mk root x TAG_SCATTER w).filter
        (fun m => m.dest == r)) = [Message.mk root r TAG_SCATTER v] := by
  intro rs
  induction rs with
  | nil => intro r _ hr; cases hr
  | cons x rs' ih =>
      intro r hnd hr hroot hv
      have hnd' : rs'.Nodup := (List.nodup_cons.mp hnd).2
      by_cases hxr : x = r
      · subst hxr
        have hx_not_mem : x ∉ rs' := (List.nodup_cons.mp hnd).1
        rw [List.filterMap_cons]
        simp only [hroot, if_false, hv, Option.map_some']
        rw [List.filter_cons_of_pos (by simp)]
        have htail : ((rs'.filterMap fun y =>
            if y = root then none
            else (values[y]?).map fun w => Message.mk root y TAG_SCATTER w).filter
          (fun m => m.dest == x)) = [] := by
          apply List.filter_eq_nil_iff.mpr
          intro m hm
          have := mem_scatter_sends_dest root values rs' m hm
          simp only [beq_iff_eq]
          intro hdest
          exact hx_not_mem (hdest ▸ this)
        rw [htail]
      · have hr' : r ∈ rs' := by
          rcases List.mem_cons.mp hr with h | h
          · exact absurd h.symm hxr
          · exact h
        rw [List.filterMap_cons]
        rcases hgx : (if x = root then none
            else (values[x]?).map fun w => Message.mk root x TAG_SCATTER w) with _ | m
        · exact ih r hnd' hr' hroot hv
        · by_cases hxroot : x = root
          · simp [hxroot] at hgx
          · simp only [hxroot, if_false, Option.map_eq_some'] at hgx
            obtain ⟨w, _, rfl⟩ := hgx
            rw [List.filter_cons_of_neg (by simp [hxr])]
            exact ih r hnd' hr' hroot hv

/-- C7: `scatter(values, root)` fails with `ValueError` on the root before
any send whenever `len(values) ≠ size`; when `len(values) = size`, the root
returns `values[root]` locally, exactly one `TAG_SCATTER` message addressed
to each other rank `r` carries `values[r]`, and rank `r`'s
`recv(source=root, tag=TAG_SCATTER)` on the delivered message returns
`values[r]`. -/
theorem scatter_spec (root size : Nat) (values : List α) :
    (values.length ≠ size → scatter_root root size values = Except.error ()) ∧
    (values.length = size → root < size →
      (∃ v, values[root]? = some v ∧
        scatter_root root size values =
          Except.ok (some v, scatter_sends root size values)) ∧
      (∀ r, r < size → r ≠ root → ∃ v, values[r]? = some v ∧
        ((scatter_sends root size values).filter (fun m => m.dest == r)) =
          [Message.mk root r TAG_SCATTER v] ∧
        scatter_non_root [Message.mk root r TAG_SCATTER v] root = some (v, []))) := by
  constructor
  · intro hne
    simp [scatter_root, hne]
  · intro hlen hroot
    constructor
    · obtain ⟨v, hv⟩ : ∃ v, values[root]? = some v := by
        have : root < values.length := hlen ▸ hroot
        exact ⟨values.get ⟨root, this⟩, List.getElem?_eq_getElem this⟩
      exact ⟨v, hv, by simp [scatter_root, hlen, hv]⟩
    · intro r hr hrroot
      obtain ⟨v, hv⟩ : ∃ v, values[r]? = some v := by
        have : r < values.length := hlen ▸ hr
        exact ⟨values.get ⟨r, this⟩, List.getElem?_eq_getElem this⟩
      refine ⟨v, hv, ?_, ?_⟩
      · exact scatter_sends_filter_dest root values v (List.range size) r
          (List.nodup_range size) (List.mem_range.mpr hr) hrroot hv
      · simp [scatter_non_root, comm_recv, comm_recv_go, transport_recv, recv_scan,
          tag_matches]

/-- Witness for C7 at `size = 3`, `root = 0`: the length-2 list is rejected
and the length-3 list is scattered with each rank receiving its piece. -/
theorem scatter_spec_witness :
    (([10, 20] : List Nat).length ≠ 3 →
      scatter_root 0 3 ([10, 20] : List Nat) = Except.error ()) ∧
    (([10, 20, 30] : List Nat).length = 3 → 0 < 3 →
      (∃ v, ([10, 20, 30] : List Nat)[0]? = some v ∧
        scatter_root 0 3 ([10, 20, 30] : List Nat) =
          Except.ok (some v, scatter_sends 0 3 [10, 20, 30])) ∧
      (∀ r, r < 3 → r ≠ 0 → ∃ v, ([10, 20, 30] : List Nat)[r]? = some v ∧
        ((scatter_sends 0 3 ([10, 20, 30] : List Nat)).filter
            (fun m => m.dest == r)) = [Message.mk 0 r TAG_SCATTER v] ∧
        scatter_non_root [Message.mk 0 r TAG_SCATTER v] 0 = some (v, []))) :=
  ⟨(scatter_spec 0 3 ([10, 20] : List Nat)).1,
    fun h12 h03 => (scatter_spec 0 3 ([10, 20, 30] : List Nat)).2 h12 h03⟩

/-! ## Job lifecycle (`src/mpipy/runtime.py`)

The process-wide mutable state of `runtime.py` — `_JOB_ACTIVE`,
`_CANCEL_EVENT`, `COMM_WORLD` and the module-level `_CONFIG` of
`config.py` — becomes an explicit record threaded through the modelled
control flow of `run` and `cancel_job`.  The mutex only serialises the
transitions; the modelled execution is the sequential behaviour of one
`run` call. -/

/-- Process-wide runtime state: the job-active flag, the cancel event, and
whether `COMM_WORLD` and `_CONFIG` are currently set. -/
structure RunState where
  jobActive : Bool
  cancelSet : Bool
  commSet : Bool
  configSet : Bool
  deriving DecidableEq, Repr

/-- The ways a modelled `run` or `cancel_job` call can raise.
`barrierError` stands for the `comm.barrier()` call of the `finally` block
raising (`sendall` to a dead worker is an `OSError`); a teardown barrier
that never returns likewise never reaches the cleanup assignments, so its
observable effect on the job state is the same. -/
inductive RunError where
  | configError
  | jobStateError
  | transportError
  | fnError
  | barrierError
  deriving DecidableEq, Repr

/-- The actions of the `finally` block of `runtime.run`, in source order:
`comm.barrier()`, `COMM_WORLD = None`, `clear_config()`,
`_CANCEL_EVENT.clear()`, `_JOB_ACTIVE = False`. -/
inductive TeardownStep where
  | barrier
  | detachComm
  | clearConfig
  | clearCancel
  | releaseJob
  deriving DecidableEq, Repr

/-- Outcome of a modelled `run` call: the returned or raised result, the
process-wide state it leaves behind, and the teardown actions of the
`finally` block that completed, in order. -/
structure RunResult where
  result : Except RunError Unit
  state : RunState
  teardown : List TeardownStep
  deriving Repr

/-- Embedding of `runtime.run`, parameterised by the environment and the
outcomes of its effectful steps:
`envRank` is `MPI_RANK` (`some` means the process is a worker),
`initMasterOk` says whether `launch_workers` plus `accept_all` inside
`init_master` succeed, `fnOk` says whether `fn` returns normally
(`false` covers an exception from `fn`, including `JobCancelled`), and
`barrierOk` says whether the `comm.barrier()` call that opens the
`finally` block returns (it can raise — `sendall` to a dead worker — or
block forever, since no worker-side code sends a post-`fn` barrier
message).  When the barrier completes, the four cleanup assignments
follow; when it does not, none of them run and the barrier's exception
supersedes `fn`'s outcome (a barrier that never returns also never
reaches the assignments, so the recorded state is the same).  Note that
`init_master` is called *outside* the `try`, so a failure there
propagates without entering the `finally` at all. -/
def run_model (envRank : Option Nat) (initMasterOk fnOk barrierOk : Bool)
    (s : RunState) : RunResult :=
  if s.configSet = false then RunResult.mk (Except.error RunError.configError) s []
  else if envRank.isSome then
    let s' := { s with commSet := true }
    RunResult.mk (if fnOk then Except.ok () else Except.error RunError.fnError) s' []
  else if s.jobActive then RunResult.mk (Except.error RunError.jobStateError) s []
  else
    let s1 := { s with jobActive := true, cancelSet := false }
    if initMasterOk = false then RunResult.mk (Except.error RunError.transportError) s1 []
    else
      let s2 := { s1 with commSet := true }
      if barrierOk = false then RunResult.mk (Except.error RunError.barrierError) s2 []
      else
        RunResult.mk (if fnOk then Except.ok () else Except.error RunError.fnError)
          (RunState.mk false false false false)
          [TeardownStep.barrier, TeardownStep.detachComm, TeardownStep.clearConfig,
            TeardownStep.clearCancel, TeardownStep.releaseJob]

/-- Embedding of `runtime.cancel_job`: raises `JobStateError` when
`COMM_WORLD is None or not _JOB_ACTIVE`, otherwise sets the cancel event
(the control frames sent to the workers do not change the local state). -/
def cancel_job_model (s : RunState) : Except RunError RunState :=
  if s.commSet = false || s.jobActive = false then Except.error RunError.jobStateError
  else Except.ok { s with cancelSet := true }

/-- C1 (counterexample): starting from an idle configured master, a `run`
call whose worker launch / accept fails (`initMasterOk = false`) raises
without running teardown: the job-active flag stays set, and a subsequent
`run` call fails with `JobStateError` instead of starting a new job. -/
theorem run_no_teardown_on_accept_failure :
    (run_model none false true true (RunState.mk false false false true)).state.jobActive =
      true ∧
    (run_model none true true true
        (run_model none false true true (RunState.mk false false false true)).state).result =
      Except.error RunError.jobStateError :=
  ⟨rfl, rfl⟩

/-- C1 (amended): on every exit path of `run` on the master in which
`init_master` succeeded — `fn` returning normally, `fn` raising, or the
job being cancelled (which surfaces as either of those) — `run` enters the
guaranteed-cleanup path, and provided its opening `comm.barrier()`
completes, teardown runs to completion: the barrier is performed and then
the communicator is detached, the configuration is cleared, the cancel
signal is cleared, and the job-active flag is released (the five steps in
that order), so a subsequent `run` does not fail with `JobStateError`.
When the teardown barrier raises or never returns, no cleanup step
completes and the job-active flag stays set; when worker launch or accept
fails before `fn` starts, teardown does not run at all (see the
counterexample). -/
theorem run_teardown_after_successful_start (fnOk : Bool) (s : RunState)
    (hcfg : s.configSet = true) (hidle : s.jobActive = false) :
    (run_model none true fnOk true s).teardown =
      [TeardownStep.barrier, TeardownStep.detachComm, TeardownStep.clearConfig,
        TeardownStep.clearCancel, TeardownStep.releaseJob] ∧
    (run_model none true fnOk true s).state.jobActive = false ∧
    (run_model none true fnOk true s).state.cancelSet = false ∧
    (run_model none true fnOk true s).state.commSet = false ∧
    (run_model none true fnOk true s).state.configSet = false ∧
    (run_model none true true true (run_model none true fnOk true s).state).result ≠
      Except.error RunError.jobStateError ∧
    (run_model none true fnOk false s).teardown = [] ∧
    (run_model none true fnOk false s).state.jobActive = true := by
  simp [run_model, hcfg, hidle]

/-- Witness for C1 (amended) with `fn` raising, from an idle configured
state. -/
theorem run_teardown_after_successful_start_witness :
    (RunState.mk false false false true).configSet = true ∧
    (RunState.mk false false false true).jobActive = false ∧
    ((run_model none true false true (RunState.mk false false false true)).teardown =
        [TeardownStep.barrier, TeardownStep.detachComm, TeardownStep.clearConfig,
          TeardownStep.clearCancel, TeardownStep.releaseJob] ∧
      (run_model none true false true
        (RunState.mk false false false true)).state.jobActive = false ∧
      (run_model none true false true
        (RunState.mk false false false true)).state.cancelSet = false ∧
      (run_model none true false true
        (RunState.mk false false false true)).state.commSet = false ∧
      (run_model none true false true
        (RunState.mk false false false true)).state.configSet = false ∧
      (run_model none true true true
          (run_model none true false true (RunState.mk false false false true)).state).result ≠
        Except.error RunError.jobStateError ∧
      (run_model none true false false (RunState.mk false false false true)).teardown = [] ∧
      (run_model none true false false
        (RunState.mk false false false true)).state.jobActive = true) :=
  ⟨rfl, rfl, run_teardown_after_successful_start false (RunState.mk false false false true)
    rfl rfl⟩

/-- C10: in a worker process (one that entered `run` through the
`MPI_RANK` bypass), the job-active flag is never set by `run` — the worker
branch returns before the flag assignment — so `cancel_job` there always
fails with `JobStateError`, both while the job function is running and
after it returns; on the master, `cancel_job` during an active job
succeeds.  In the worker branch the state in which `fn` executes is the
returned state, so the conclusion covers the in-flight case as well. -/
theorem worker_cancel_job_always_fails (r : Nat) (initMasterOk fnOk barrierOk : Bool)
    (s : RunState) (hidle : s.jobActive = false) :
    (run_model (some r) initMasterOk fnOk barrierOk s).state.jobActive = false ∧
    cancel_job_model (run_model (some r) initMasterOk fnOk barrierOk s).state =
      Except.error RunError.jobStateError ∧
    (∀ s', s'.jobActive = false →
      cancel_job_model s' = Except.error RunError.jobStateError) ∧
    (∀ s', s'.jobActive = true → s'.commSet = true →
      cancel_job_model s' = Except.ok { s' with cancelSet := true }) := by
  refine ⟨?_, ?_, ?_, ?_⟩
  · cases hc : s.configSet <;> simp [run_model, hc, hidle]
  · cases hc : s.configSet <;> simp [run_model, cancel_job_model, hc, hidle]
  · intro s' h
    simp [cancel_job_model, h]
  · intro s' h1 h2
    simp [cancel_job_model, h1, h2]

/-- Witness for C10 in a worker with rank 3 running a job function. -/
theorem worker_cancel_job_always_fails_witness :
    (RunState.mk false false false true).jobActive = false ∧
    ((run_model (some 3) true true true
        (RunState.mk false false false true)).state.jobActive = false ∧
      cancel_job_model
          (run_model (some 3) true true true (RunState.mk false false false true)).state =
        Except.error RunError.jobStateError ∧
      (∀ s', s'.jobActive = false →
        cancel_job_model s' = Except.error RunError.jobStateError) ∧
      (∀ s', s'.jobActive = true → s'.commSet = true →
        cancel_job_model s' = Except.ok { s' with cancelSet := true })) :=
  ⟨rfl, worker_cancel_job_always_fails 3 true true true (RunState.mk false false false true)
    rfl⟩

/-! ## Configuration validation (`src/mpipy/config.py`) -/

/-- Embedding of the fields of `config.InfraConfig` that
`configure_infra` validates and fills in. -/
structure InfraConfig where
  master_node : String
  per_node_cores : Int
  per_node_threads : Option Int
  num_worker_nodes : Int
  hosts : List String
  deriving DecidableEq, Repr

/-- Embedding of `config.configure_infra`.  Optional Python arguments are
`Option`s (`none` is Python `None`); reading the hostfile is I/O, so the
`hostfile` argument is replaced by the list of hosts it yields (`none`
when the argument is absent or falsy).  Python's `if hosts:` treats an
empty list like `None`, which coincides with extending by the empty list.
The checks appear in source order; note that `per_node_cores` is only
checked against `None`, never for positivity, and that the second
`num_worker_nodes is None` check in the source is dead code. -/
def configure_infra (master_node : Option String) (per_node_cores : Option Int)
    (per_node_threads : Option Int) (num_worker_nodes : Option Int)
    (hosts : Option (List String)) (hostfileHosts : Option (List String)) :
    Except Unit InfraConfig :=
  if master_node = none ∨ master_node = some "" then Except.error ()
  else if per_node_cores = none then Except.error ()
  else if (match per_node_threads with | some t => decide (t ≤ 0) | none => false : Bool) then
    Except.error ()
  else
    let host_list := (match hosts with | some hs => hs | none => []) ++
      (match hostfileHosts with | some hs => hs | none => [])
    let nwn? : Option Int := match num_worker_nodes with
      | none => if host_list = [] then none else some host_list.length
      | some n => some n
    match nwn? with
    | none => Except.error ()
    | some nwn =>
        if nwn ≤ 0 then Except.error ()
        else if host_list ≠ [] ∧ (host_list.length : Int) ≠ nwn then Except.error ()
        else Except.ok (InfraConfig.mk (master_node.getD "") (per_node_cores.getD 0)
          per_node_threads nwn host_list)

/-- C8 (counterexample): `per_node_cores = 0` (not positive) with
otherwise valid arguments is accepted — `configure_infra` only compares
`per_node_cores` against `None`, so the claimed `ConfigError` on
non-positive core counts does not happen. -/
theorem configure_infra_accepts_zero_cores :
    configure_infra (some "master") (some 0) none (some 1) (some ["w1"]) none =
      Except.ok (InfraConfig.mk "master" 0 none 1 ["w1"]) := by
  rfl

/-- C8 (amended): `configure_infra` fails with `ConfigError` exactly when
`master_node` is `None` or empty, or `per_node_cores` is `None` (its value
is never range-checked), or `per_node_threads` is given and non-positive,
or neither `hosts` nor the hostfile yields any host while
`num_worker_nodes` is unset, or `num_worker_nodes` is given non-positive,
or the combined host list is non-empty and its length differs from
`num_worker_nodes`. -/
theorem configure_infra_error_iff (master_node : Option String)
    (per_node_cores per_node_threads num_worker_nodes : Option Int)
    (hosts hostfileHosts : Option (List String)) :
    configure_infra master_node per_node_cores per_node_threads num_worker_nodes
        hosts hostfileHosts = Except.error () ↔
      (master_node = none ∨ master_node = some "") ∨
      per_node_cores = none ∨
      (∃ t, per_node_threads = some t ∧ t ≤ 0) ∨
      (num_worker_nodes = none ∧
        (match hosts with | some hs => hs | none => []) ++
          (match hostfileHosts with | some hs => hs | none => []) = []) ∨
      (∃ n, num_worker_nodes = some n ∧ n ≤ 0) ∨
      (∃ n, num_worker_nodes = some n ∧
        (match hosts with | some hs => hs | none => []) ++
          (match hostfileHosts with | some hs => hs | none => []) ≠ [] ∧
        (((match hosts with | some hs => hs | none => []) ++
          (match hostfileHosts with | some hs => hs | none => [])).length : Int) ≠ n) := by
  unfold configure_infra
  set host_list := (match hosts with | some hs => hs | none => []) ++
    (match hostfileHosts with | some hs => hs | none => []) with hhl
  by_cases h1 : master_node = none ∨ master_node = some ""
  · simp [h1]
  · rw [if_neg h1]
    simp only [h1, false_or]
    by_cases h2 : per_node_cores = none
    · simp [h2]
    · rw [if_neg h2]
      simp only [h2, false_or]
      by_cases h3 :
          (match per_node_threads with | some t => decide (t ≤ 0) | none => false : Bool) = true
      · rw [if_pos h3]
        rcases per_node_threads with _ | t
        · simp at h3
        · simp only [decide_eq_true_eq] at h3
          simp only [true_iff]
          exact Or.inl ⟨t, rfl, h3⟩
      · rw [if_neg h3]
        have h3' : ¬ ∃ t, per_node_threads = some t ∧ t ≤ 0 := by
          rintro ⟨t, rfl, ht⟩
          exact h3 (by simpa using ht)
        simp only [h3', false_or]
        rcases num_worker_nodes with _ | n
        · by_cases h4 : host_list = []
          · simp [h4]
          · have hlen : ¬ ((host_list.length : Int) ≤ 0) := by
              simp only [not_le, Int.natCast_pos]
              exact List.length_pos.mpr h4
            simp [h4, hlen]
        · simp only [Option.some.injEq, reduceCtorEq, false_and, exists_false, false_or,
            exists_and_left, exists_eq_left']
          by_cases h5 : n ≤ 0
          · simp [h5]
          · rw [if_neg h5]
            simp only [h5, false_or]
            by_cases h6 : host_list ≠ [] ∧ (host_list.length : Int) ≠ n
            · simp [h6]
            · rw [if_neg h6]
              simp [h6]

/-! ## Primality test (`src/mpipy/prime.py`) -/

/-- Embedding of the divisor scan
`for i, d in enumerate(range(start, end + 1, 2), start=start): if n % d == 0: ... break`
of `_is_prime_impl`, stepping `d` by 2 up to `stop` and stopping at the
first divisor.  The `i % 1024 == 0 and cancel_requested()` early exit is
modelled as never taken, per the no-cancellation hypothesis of the claim.
The fuel is an upper bound on the number of iterations. -/
def trial_div_go (n stop : Nat) : Nat → Nat → Bool
  | 0, _ => false
  | fuel + 1, d =>
      if stop < d then false
      else if n % d = 0 then true
      else trial_div_go n stop fuel (d + 2)

/-- Embedding of `_is_prime_impl(n, comm)` specialised to the size-1
single-process fallback (`LocalComm`: `rank = 0`, `size = 1`,
`gather(v) = [v]`, so the final result is `not any([local_is_composite])`),
with `cancel_requested()` identically false.  `span = max(0, limit - 1)`
is Nat subtraction, `chunk = (span + size - 1) // size = span` for
`size = 1`, `start = 2 + rank * chunk = 2`, and the `start += 1`
adjustment makes the scan begin at 3. -/
def is_prime_local (n : Int) : Bool :=
  if n < 2 then false
  else if n % 2 = 0 then decide (n = 2)
  else
    let m := n.toNat
    let limit := Nat.sqrt m
    if limit < 2 then true
    else
      let span := limit - 1
      let chunk := span
      let start := 2
      let stop := min limit (start + chunk - 1)
      let st := if start % 2 = 0 then start + 1 else start
      let localComposite :=
        if start ≤ stop then trial_div_go m stop (stop + 2 - st) st else false
      !localComposite

/-- Soundness of the scan: a `true` result exhibits a divisor in the
scanned arithmetic progression. -/
theorem trial_div_go_sound (n stop : Nat) :
    ∀ (fuel d : Nat), trial_div_go n stop fuel d = true →
      ∃ j, d ≤ j ∧ j ≤ stop ∧ n % j = 0 ∧ j % 2 = d % 2 := by
  intro fuel
  induction fuel with
  | zero => intro d h; cases h
  | succ fuel ih =>
      intro d h
      rw [trial_div_go] at h
      by_cases h1 : stop < d
      · rw [if_pos h1] at h; cases h
      · rw [if_neg h1] at h
        by_cases h2 : n % d = 0
        · exact ⟨d, Nat.le_refl d, Nat.le_of_not_lt h1, h2, rfl⟩
        · rw [if_neg h2] at h
          obtain ⟨j, hj1, hj2, hj3, hj4⟩ := ih (d + 2) h
          exact ⟨j, by omega, hj2, hj3, by omega⟩

/-- Completeness of the scan: with enough fuel, any divisor in the scanned
progression is found. -/
theorem trial_div_go_complete (n stop : Nat) :
    ∀ (fuel d j : Nat), d ≤ j → j ≤ stop → (j - d) % 2 = 0 → n % j = 0 →
      stop + 1 - d ≤ fuel → trial_div_go n stop fuel d = true := by
  intro fuel
  induction fuel with
  | zero => intro d j h1 h2 _ _ h5; omega
  | succ fuel ih =>
      intro d j h1 h2 h3 h4 h5
      rw [trial_div_go]
      have hds : ¬ stop < d := by omega
      rw [if_neg hds]
      by_cases hd : n % d = 0
      · rw [if_pos hd]
      · rw [if_neg hd]
        have hdj : d ≠ j := fun h => hd (h ▸ h4)
        have hj2' : d + 2 ≤ j := by omega
        exact ih (d + 2) j hj2' h2 (by omega) h4 (by omega)

/-- Unfolding of the odd branch of `is_prime_local` when the scan runs:
`stop` reduces to `Nat.sqrt n.toNat` and the adjusted start to 3. -/
theorem is_prime_local_odd_eq (n : Int) (h2 : ¬ n < 2) (hev : ¬ n % 2 = 0)
    (hlim : ¬ Nat.sqrt n.toNat < 2) :
    is_prime_local n =
      !trial_div_go n.toNat (Nat.sqrt n.toNat) (Nat.sqrt n.toNat + 2 - 3) 3 := by
  have hlim' : 2 ≤ Nat.sqrt n.toNat := Nat.le_of_not_lt hlim
  rw [is_prime_local, if_neg h2, if_neg hev]
  simp only [Nat.reduceMod, reduceIte, Nat.reduceAdd]
  rw [if_neg hlim]
  have hstop : min (Nat.sqrt n.toNat) (2 + (Nat.sqrt n.toNat - 1) - 1) =
      Nat.sqrt n.toNat := by
    omega
  rw [hstop, if_pos hlim']

/-- Correctness of `is_prime_local`: it returns `true` exactly on the
non-negative inputs whose value is a prime number.  This is the heart of
C9; the individual scenario inputs follow from it. -/
theorem is_prime_local_iff (n : Int) :
    is_prime_local n = true ↔ 0 ≤ n ∧ Nat.Prime n.toNat := by
  by_cases h2 : n < 2
  · rw [is_prime_local, if_pos h2]
    constructor
    · intro h; cases h
    · rintro ⟨h0, hp⟩
      have := hp.two_le
      omega
  · have hn0 : 0 ≤ n := by omega
    have hm2 : 2 ≤ n.toNat := by omega
    by_cases hev : n % 2 = 0
    · rw [is_prime_local, if_neg h2, if_pos hev]
      have hmev : n.toNat % 2 = 0 := by omega
      constructor
      · intro h
        have hn2 : n = 2 := by simpa using h
        subst hn2
        exact ⟨by norm_num, by exact (by norm_num : Nat.Prime 2)⟩
      · rintro ⟨-, hp⟩
        have : n.toNat = 2 := (Nat.Prime.even_iff hp).mp (Nat.even_iff.mpr hmev)
        simp [show n = 2 by omega]
    · have hmodd : n.toNat % 2 = 1 := by omega
      by_cases hlim : Nat.sqrt n.toNat < 2
      · rw [is_prime_local, if_neg h2, if_neg hev]
        simp only [Nat.reduceMod, reduceIte, Nat.reduceAdd]
        rw [if_pos hlim]
        have hm4 : n.toNat < 4 := by
          have := (Nat.sqrt_lt (m := n.toNat) (n := 2)).mp hlim
          omega
        have hm3 : n.toNat = 3 := by omega
        rw [hm3]
        simp only [true_iff]
        exact ⟨hn0, by norm_num⟩
      · rw [is_prime_local_odd_eq n h2 hev hlim, Bool.not_eq_true']
        set m := n.toNat with hm
        constructor
        · intro htrial
          refine ⟨hn0, ?_⟩
          by_contra hnp
          have hpfac := Nat.minFac_prime (n := m) (by omega)
          have hpdvd := Nat.minFac_dvd m
          have hpsq := Nat.minFac_sq_le_self (n := m) (by omega) hnp
          have hp2 : m.minFac ≠ 2 := by
            intro h
            have : (2 : Nat) ∣ m := h ▸ hpdvd
            omega
          have hpodd : m.minFac % 2 = 1 :=
            Nat.odd_iff.mp (hpfac.eq_two_or_odd'.resolve_left hp2)
          have hp3 : 3 ≤ m.minFac := by
            have := hpfac.two_le
            omega
          have hple : m.minFac ≤ Nat.sqrt m := by
            rw [Nat.pow_two] at hpsq
            exact Nat.le_sqrt.mpr hpsq
          have hmod : m % m.minFac = 0 := Nat.mod_eq_zero_of_dvd hpdvd
          have htrue := trial_div_go_complete m (Nat.sqrt m) (Nat.sqrt m + 2 - 3) 3
            m.minFac hp3 hple (by omega) hmod (by omega)
          rw [htrue] at htrial
          cases htrial
        · rintro ⟨-, hp⟩
          by_contra htrial
          rw [Bool.not_eq_false] at htrial
          obtain ⟨j, hj3, hjle, hjmod, -⟩ := trial_div_go_sound m (Nat.sqrt m) _ 3 htrial
          have hjdvd : j ∣ m := Nat.dvd_of_mod_eq_zero hjmod
          have hjm : j < m := by
            have := Nat.sqrt_lt_self (n := m) (by omega)
            omega
          rcases (Nat.Prime.eq_one_or_self_of_dvd hp j hjdvd) with h | h <;> omega

/-- C9 (counterexample): the spec's Scenario F expects
`is_prime(99999999999983) = True`, but `99999999999983 = 59 * 179 * 9468800303`
is composite: the code's trial division finds the divisor 59 and returns
`False`, and the number is in fact not prime. -/
theorem is_prime_local_large_composite :
    is_prime_local 99999999999983 = false ∧ ¬ Nat.Prime 99999999999983 := by
  have hnp : ¬ Nat.Prime 99999999999983 := by
    intro hp
    have h59 : (59 : Nat) ∣ 99999999999983 := by norm_num
    rcases hp.eq_one_or_self_of_dvd 59 h59 with h | h <;> omega
  refine ⟨?_, hnp⟩
  have h := is_prime_local_iff 99999999999983
  rcases hb : is_prime_local 99999999999983 with _ | _
  · rfl
  · exfalso
    obtain ⟨-, hp⟩ := h.mp hb
    exact hnp (by simpa using hp)

/-- C9 (amended): with a size-1 communicator and no cancellation
requested, `is_prime n` returns `True` exactly when `n` is a prime number;
on the scenario inputs: `is_prime 2 = True`, `is_prime 4 = False`,
`is_prime 17 = True`, `is_prime 99999999999983 = False` (the number is
composite, contrary to the spec's expected value), `is_prime 0 = False`,
`is_prime (-7) = False`. -/
theorem is_prime_local_correct :
    (∀ n : Int, is_prime_local n = true ↔ 0 ≤ n ∧ Nat.Prime n.toNat) ∧
    is_prime_local 2 = true ∧ is_prime_local 4 = false ∧
    is_prime_local 17 = true ∧ is_prime_local 99999999999983 = false ∧
    is_prime_local 0 = false ∧ is_prime_local (-7) = false := by
  refine ⟨is_prime_local_iff, ?_, rfl, ?_, ?_, rfl, rfl⟩
  · exact (is_prime_local_iff 2).mpr ⟨by norm_num, show Nat.Prime 2 by norm_num⟩
  · exact (is_prime_local_iff 17).mpr ⟨by norm_num, show Nat.Prime 17 by norm_num⟩
  · have hnp : ¬ Nat.Prime (99999999999983 : Int).toNat := by
      intro hp
      have h59 : (59 : Nat) ∣ 99999999999983 := by norm_num
      rcases (show Nat.Prime 99999999999983 by simpa using hp).eq_one_or_self_of_dvd 59 h59
        with h | h <;> omega
    rcases hb : is_prime_local 99999999999983 with _ | _
    · rfl
    · exact absurd ((is_prime_local_iff 99999999999983).mp hb).2 hnp

end Mpipy
